import Mathlib

/-
Verification of the Reductron polyhedral-abstraction prover
(sources: reductron/ptio/ptnet.py, reductron/ptio/presburger.py,
reductron/interfaces/z3.py, reductron/interfaces/fast.py,
reductron/reductron.py).

Python dictionaries are modelled as insertion-ordered association lists
over string keys; `getD m p d` is the embedding of `m.get(p, d)` and
`dictInsert m p v` of `m[p] = v` (an existing key keeps its position,
a new key is appended at the end, exactly as CPython dicts behave).
-/

namespace Reductron

/-- Embedding of Python dict lookup `m.get(p, d)`. -/
def getD {α : Type} : List (String × α) → String → α → α
  | [], _, d => d
  | (q, w) :: rest, p, d => if q = p then w else getD rest p d

/-- Embedding of Python dict assignment `m[p] = v`: replace the value at an
existing key in place, otherwise append the new binding at the end. -/
def dictInsert {α : Type} : List (String × α) → String → α → List (String × α)
  | [], p, v => [(p, v)]
  | (q, w) :: rest, p, v =>
      if q = p then (p, v) :: rest else (q, w) :: dictInsert rest p v

/-- The keys of an association list, in order. -/
def keysOf {α : Type} (m : List (String × α)) : List String := m.map Prod.fst

theorem getD_dictInsert {α : Type} (m : List (String × α)) (p q : String) (v d : α) :
    getD (dictInsert m p v) q d = if q = p then v else getD m q d := by
  induction m with
  | nil =>
      by_cases h : q = p
      · subst h
        simp [dictInsert, getD]
      · have h' : ¬ p = q := fun hpq => h hpq.symm
        simp [dictInsert, getD, h, h']
  | cons e rest ih =>
      obtain ⟨a, w⟩ := e
      by_cases hap : a = p
      · subst hap
        by_cases hqa : q = a
        · subst hqa
          simp [dictInsert, getD]
        · have h' : ¬ a = q := fun hh => hqa hh.symm
          simp [dictInsert, getD, hqa, h']
      · by_cases haq : a = q
        · subst haq
          have hqp : ¬ a = p := hap
          simp [dictInsert, getD, hap, hqp]
        · simp [dictInsert, getD, hap, haq, ih]

theorem mem_dictInsert {α : Type} (m : List (String × α)) (p : String) (v : α)
    (e : String × α) (he : e ∈ dictInsert m p v) : e = (p, v) ∨ e ∈ m := by
  induction m with
  | nil => simpa [dictInsert] using he
  | cons f rest ih =>
      obtain ⟨a, w⟩ := f
      by_cases hap : a = p
      · rw [show dictInsert ((a, w) :: rest) p v = (p, v) :: rest from by
          simp [dictInsert, hap]] at he
        rcases List.mem_cons.mp he with h | h
        · exact Or.inl h
        · exact Or.inr (List.mem_cons_of_mem _ h)
      · rw [show dictInsert ((a, w) :: rest) p v = (a, w) :: dictInsert rest p v from by
          simp [dictInsert, hap]] at he
        rcases List.mem_cons.mp he with h | h
        · exact Or.inr (h ▸ List.mem_cons_self _ _)
        · rcases ih h with h' | h'
          · exact Or.inl h'
          · exact Or.inr (List.mem_cons_of_mem _ h')

theorem mem_keys_dictInsert {α : Type} (m : List (String × α)) (p q : String) (v : α) :
    q ∈ keysOf (dictInsert m p v) ↔ q = p ∨ q ∈ keysOf m := by
  induction m with
  | nil => simp [dictInsert, keysOf]
  | cons e rest ih =>
      obtain ⟨a, w⟩ := e
      by_cases hap : a = p
      · subst hap
        rw [show dictInsert ((a, w) :: rest) a v = (a, v) :: rest from by simp [dictInsert]]
        simp only [keysOf, List.map_cons, List.mem_cons]
        tauto
      · rw [show dictInsert ((a, w) :: rest) p v = (a, w) :: dictInsert rest p v from by
          simp [dictInsert, hap]]
        have ih' := ih
        simp only [keysOf, List.map_cons, List.mem_cons] at *
        tauto

theorem getD_eq_of_not_mem_keys {α : Type} (m : List (String × α)) (p : String) (d : α)
    (h : p ∉ keysOf m) : getD m p d = d := by
  induction m with
  | nil => rfl
  | cons e rest ih =>
      obtain ⟨a, w⟩ := e
      simp only [keysOf, List.map_cons, List.mem_cons] at h
      push_neg at h
      simp only [getD, if_neg (fun hap : a = p => h.1 hap.symm)]
      exact ih h.2

theorem getD_mem_of_mem_keys {α : Type} (m : List (String × α)) (p : String) (d : α)
    (h : p ∈ keysOf m) : (p, getD m p d) ∈ m := by
  induction m with
  | nil => simp [keysOf] at h
  | cons e rest ih =>
      obtain ⟨a, w⟩ := e
      by_cases hap : a = p
      · subst hap
        simp [getD]
      · simp only [keysOf, List.map_cons, List.mem_cons] at h
        rcases h with h | h
        · exact absurd h.symm hap
        · simp only [getD, if_neg hap]
          exact List.mem_cons_of_mem _ (ih h)

/-- Pointwise map congruence (over members), used to compare renderings. -/
theorem map_congr_mem {α β : Type} (l : List α) (f g : α → β)
    (h : ∀ a ∈ l, f a = g a) : l.map f = l.map g := by
  induction l with
  | nil => rfl
  | cons a rest ih =>
      simp only [List.map_cons]
      rw [h a (List.mem_cons_self _ _), ih (fun b hb => h b (List.mem_cons_of_mem _ hb))]

/-! ### Transitions (ptnet.py, class Transition and PetriNet.parse_transition) -/

/-- A transition of a Petri net, as built by the parser
(`Transition.__init__` + `PetriNet.parse_transition` + `Transition.normalize`).
Weight maps are Python dicts keyed by places; the owning net is represented
by passing the place list explicitly at rendering time. -/
structure Transition where
  id : String
  label : String
  pre : List (String × Nat)
  post : List (String × Nat)
  delta : List (String × Int)
  connected_places : List String
deriving DecidableEq, Repr

/-- The local variable `delta = self.post.get(place, 0) - self.pre.get(place, 0)`
of `Transition.normalize` (ptnet.py line 494). -/
def deltaAt (pre post : List (String × Nat)) (p : String) : Int :=
  ((getD post p 0 : Nat) : Int) - ((getD pre p 0 : Nat) : Int)

/-- An arc as produced by `PetriNet.parse_arc`: a place name (braces already
stripped) and a weight (`1` when no `*` multiplier is present). -/
structure Arc where
  place : String
  weight : Nat
deriving DecidableEq, Repr

/-- One `tr` declaration line after arc parsing: the arcs before and after
the `->` token. -/
structure TrLine where
  inputs : List Arc
  outputs : List Arc
deriving DecidableEq, Repr

/-- `Transition.normalize` (ptnet.py lines 492-496): for every place in the
support of pre or post, assign `post - pre` into the EXISTING delta dict when
non-zero.  The method mutates `self.delta` and never deletes an entry, so a
re-normalization after further `tr` lines can leave a stale entry at a place
whose difference has become zero.  The Python source iterates the set
`set(pre) | set(post)`; the iteration order is immaterial to every property
below, and is fixed here as the deduplicated key list. -/
def normalize (oldDelta : List (String × Int)) (pre post : List (String × Nat)) :
    List (String × Int) :=
  ((keysOf pre) ++ (keysOf post)).dedup.foldl
    (fun m p => if deltaAt pre post p = 0 then m else dictInsert m p (deltaAt pre post p))
    oldDelta

/-- The fresh transition built by `Transition.__init__` at the first `tr`
declaration of an id (ptnet.py lines 426-447, 240-246): empty dicts and no
connected places. -/
def Transition.init (trId labelStr : String) : Transition :=
  ⟨trId, labelStr, [], [], [], []⟩

/-- `PetriNet.parse_transition` (ptnet.py lines 220-258) for ONE `tr` line
applied to the current state of the transition.  The reuse branch (lines
238-239) fetches the already-declared transition, so the arcs extend the
existing pre/post dicts, the arc places (inputs then outputs) are appended to
the existing `connected_places`, and `normalize` re-runs on the mutated
delta dict. -/
def parseTransitionLine (tr : Transition) (line : TrLine) : Transition :=
  let pre := line.inputs.foldl (fun m a => dictInsert m a.place a.weight) tr.pre
  let post := line.outputs.foldl (fun m a => dictInsert m a.place a.weight) tr.post
  { tr with
      pre := pre
      post := post
      delta := normalize tr.delta pre post
      connected_places :=
        tr.connected_places ++ line.inputs.map Arc.place ++ line.outputs.map Arc.place }

/-- A transition as produced by parsing all of its `tr` declaration lines in
order, starting from the fresh transition built at the first declaration. -/
def parseTransitionLines (trId labelStr : String) (declLines : List TrLine) : Transition :=
  declLines.foldl parseTransitionLine (Transition.init trId labelStr)

/-- A transition declared by a single `tr` line (no reuse of its id). -/
def parseTransition (trId labelStr : String) (inputs outputs : List Arc) : Transition :=
  parseTransitionLines trId labelStr [TrLine.mk inputs outputs]

theorem parseTransitionLine_pre (tr : Transition) (line : TrLine) :
    (parseTransitionLine tr line).pre
      = line.inputs.foldl (fun m a => dictInsert m a.place a.weight) tr.pre := rfl

theorem parseTransitionLine_post (tr : Transition) (line : TrLine) :
    (parseTransitionLine tr line).post
      = line.outputs.foldl (fun m a => dictInsert m a.place a.weight) tr.post := rfl

theorem parseTransitionLine_delta (tr : Transition) (line : TrLine) :
    (parseTransitionLine tr line).delta
      = normalize tr.delta (parseTransitionLine tr line).pre
          (parseTransitionLine tr line).post := rfl

theorem parseTransitionLine_connected (tr : Transition) (line : TrLine) :
    (parseTransitionLine tr line).connected_places
      = tr.connected_places ++ line.inputs.map Arc.place
          ++ line.outputs.map Arc.place := rfl

theorem deltaAt_eq_zero_of_not_mem (pre post : List (String × Nat)) (p : String)
    (h : p ∉ keysOf pre ++ keysOf post) : deltaAt pre post p = 0 := by
  rw [List.mem_append] at h
  push_neg at h
  unfold deltaAt
  rw [getD_eq_of_not_mem_keys _ _ _ h.2, getD_eq_of_not_mem_keys _ _ _ h.1]
  simp

theorem foldl_skipInsert_lookup (g : String → Int) (c : String → Prop)
    [DecidablePred c] (l : List String) (hl : l.Nodup) :
    ∀ (m : List (String × Int)) (p : String),
      getD (l.foldl (fun m q => if c q then m else dictInsert m q (g q)) m) p 0
        = if p ∈ l ∧ ¬ c p then g p else getD m p 0 := by
  induction l with
  | nil =>
      intro m p
      simp
  | cons a t ih =>
      intro m p
      have hna : a ∉ t := (List.nodup_cons.mp hl).1
      have ht : t.Nodup := (List.nodup_cons.mp hl).2
      simp only [List.foldl_cons]
      rw [ih ht]
      by_cases hpt : p ∈ t ∧ ¬ c p
      · rw [if_pos hpt, if_pos ⟨List.mem_cons_of_mem _ hpt.1, hpt.2⟩]
      · rw [if_neg hpt]
        by_cases hca : c a
        · rw [if_pos hca]
          rw [if_neg ?_]
          rintro ⟨hmem, hnc⟩
          rcases List.mem_cons.mp hmem with rfl | hmt
          · exact hnc hca
          · exact hpt ⟨hmt, hnc⟩
        · rw [if_neg hca, getD_dictInsert]
          by_cases hpa : p = a
          · subst hpa
            rw [if_pos rfl, if_pos ⟨List.mem_cons_self _ _, hca⟩]
          · rw [if_neg hpa]
            rw [if_neg ?_]
            rintro ⟨hmem, hnc⟩
            rcases List.mem_cons.mp hmem with h | hmt
            · exact hpa h
            · exact hpt ⟨hmt, hnc⟩

theorem mem_keys_foldl_skipInsert (g : String → Int) (c : String → Prop)
    [DecidablePred c] (l : List String) :
    ∀ (m : List (String × Int)) (p : String),
      p ∈ keysOf (l.foldl (fun m q => if c q then m else dictInsert m q (g q)) m)
        ↔ p ∈ keysOf m ∨ (p ∈ l ∧ ¬ c p) := by
  induction l with
  | nil =>
      intro m p
      simp
  | cons a t ih =>
      intro m p
      simp only [List.foldl_cons]
      rw [ih]
      by_cases hca : c a
      · rw [if_pos hca]
        constructor
        · rintro (h | h)
          · exact Or.inl h
          · exact Or.inr ⟨List.mem_cons_of_mem _ h.1, h.2⟩
        · rintro (h | ⟨hmem, hnc⟩)
          · exact Or.inl h
          · rcases List.mem_cons.mp hmem with rfl | hmt
            · exact absurd hca hnc
            · exact Or.inr ⟨hmt, hnc⟩
      · rw [if_neg hca]
        constructor
        · rintro (h | h)
          · rcases (mem_keys_dictInsert m a p (g a)).mp h with rfl | h'
            · by_cases hpt : p ∈ t ∧ ¬ c p
              · exact Or.inr ⟨List.mem_cons_of_mem _ hpt.1, hpt.2⟩
              · exact Or.inr ⟨List.mem_cons_self _ _, hca⟩
            · exact Or.inl h'
          · exact Or.inr ⟨List.mem_cons_of_mem _ h.1, h.2⟩
        · rintro (h | ⟨hmem, hnc⟩)
          · exact Or.inl ((mem_keys_dictInsert m a p (g a)).mpr (Or.inr h))
          · rcases List.mem_cons.mp hmem with rfl | hmt
            · exact Or.inl ((mem_keys_dictInsert m p p (g p)).mpr (Or.inl rfl))
            · exact Or.inr ⟨hmt, hnc⟩

theorem getD_normalize (oldDelta : List (String × Int)) (pre post : List (String × Nat))
    (p : String) :
    getD (normalize oldDelta pre post) p 0
      = if deltaAt pre post p = 0 then getD oldDelta p 0 else deltaAt pre post p := by
  unfold normalize
  have h := foldl_skipInsert_lookup (fun q => deltaAt pre post q)
    (fun q => deltaAt pre post q = 0) ((keysOf pre ++ keysOf post).dedup)
    (List.nodup_dedup _) oldDelta p
  simp only at h
  rw [h]
  by_cases hd : deltaAt pre post p = 0
  · rw [if_pos hd, if_neg (by rintro ⟨_, hnc⟩; exact hnc hd)]
  · have hmem : p ∈ keysOf pre ++ keysOf post := by
      by_contra hnm
      exact hd (deltaAt_eq_zero_of_not_mem pre post p hnm)
    rw [if_neg hd, if_pos ⟨List.mem_dedup.mpr hmem, hd⟩]

theorem mem_keys_normalize (oldDelta : List (String × Int)) (pre post : List (String × Nat))
    (p : String) :
    p ∈ keysOf (normalize oldDelta pre post)
      ↔ p ∈ keysOf oldDelta ∨ ¬ deltaAt pre post p = 0 := by
  unfold normalize
  have h := mem_keys_foldl_skipInsert (fun q => deltaAt pre post q)
    (fun q => deltaAt pre post q = 0) ((keysOf pre ++ keysOf post).dedup) oldDelta p
  simp only at h
  rw [h]
  constructor
  · rintro (hm | ⟨_, hnc⟩)
    · exact Or.inl hm
    · exact Or.inr hnc
  · rintro (hm | hnc)
    · exact Or.inl hm
    · refine Or.inr ⟨List.mem_dedup.mpr ?_, hnc⟩
      by_contra hnm
      exact hnc (deltaAt_eq_zero_of_not_mem pre post p hnm)

theorem mem_keys_foldl_arcs (arcs : List Arc) (p : String) :
    ∀ m0 : List (String × Nat),
      p ∈ keysOf (arcs.foldl (fun m a => dictInsert m a.place a.weight) m0)
        ↔ p ∈ keysOf m0 ∨ p ∈ arcs.map Arc.place := by
  induction arcs with
  | nil =>
      intro m0
      simp
  | cons a t ih =>
      intro m0
      simp only [List.foldl_cons, List.map_cons, List.mem_cons]
      rw [ih, mem_keys_dictInsert]
      tauto

theorem entries_foldl_arcs (arcs : List Arc) (P : Nat → Prop)
    (hins : ∀ a ∈ arcs, P a.weight) :
    ∀ m0 : List (String × Nat), (∀ e ∈ m0, P e.2) →
      ∀ e ∈ arcs.foldl (fun m a => dictInsert m a.place a.weight) m0, P e.2 := by
  induction arcs with
  | nil =>
      intro m0 h0
      simpa using h0
  | cons a t ih =>
      intro m0 h0 e he
      simp only [List.foldl_cons] at he
      refine ih (fun b hb => hins b (List.mem_cons_of_mem _ hb)) _ ?_ e he
      intro f hf
      rcases mem_dictInsert _ _ _ _ hf with h | h
      · rw [h]
        exact hins a (List.mem_cons_self _ _)
      · exact h0 f h

/-- Invariant of partially parsed transitions: the connected places are
exactly the keys of pre and post, and every stored weight is positive.
It holds for the fresh transition and is preserved by every further `tr`
line with positive arc weights. -/
def TrOk (t : Transition) : Prop :=
  (∀ p : String, p ∈ t.connected_places ↔ (p ∈ keysOf t.pre ∨ p ∈ keysOf t.post))
    ∧ (∀ e ∈ t.pre, 0 < e.2) ∧ (∀ e ∈ t.post, 0 < e.2)

theorem trOk_init (trId labelStr : String) : TrOk (Transition.init trId labelStr) := by
  refine ⟨fun p => ?_, ?_, ?_⟩ <;> simp [Transition.init, keysOf]

theorem trOk_parseTransitionLine (t : Transition) (ln : TrLine) (ht : TrOk t)
    (hw : ∀ a ∈ ln.inputs ++ ln.outputs, 0 < a.weight) :
    TrOk (parseTransitionLine t ln) := by
  obtain ⟨hconn, hpre, hpost⟩ := ht
  have hwin : ∀ a ∈ ln.inputs, 0 < a.weight :=
    fun a ha => hw a (List.mem_append.mpr (Or.inl ha))
  have hwout : ∀ a ∈ ln.outputs, 0 < a.weight :=
    fun a ha => hw a (List.mem_append.mpr (Or.inr ha))
  refine ⟨fun p => ?_, ?_, ?_⟩
  · rw [parseTransitionLine_connected, parseTransitionLine_pre, parseTransitionLine_post,
      List.mem_append, List.mem_append, mem_keys_foldl_arcs, mem_keys_foldl_arcs]
    have h := hconn p
    tauto
  · rw [parseTransitionLine_pre]
    exact entries_foldl_arcs ln.inputs (fun w => 0 < w) hwin t.pre hpre
  · rw [parseTransitionLine_post]
    exact entries_foldl_arcs ln.outputs (fun w => 0 < w) hwout t.post hpost

theorem trOk_foldl (declLines : List TrLine) :
    ∀ t0 : Transition, TrOk t0 →
      (∀ ln ∈ declLines, ∀ a ∈ ln.inputs ++ ln.outputs, 0 < a.weight) →
      TrOk (declLines.foldl parseTransitionLine t0) := by
  induction declLines with
  | nil =>
      intro t0 h0 _
      exact h0
  | cons ln rest ih =>
      intro t0 h0 hw
      exact ih _ (trOk_parseTransitionLine t0 ln h0 (hw ln (List.mem_cons_self _ _)))
        (fun l hl => hw l (List.mem_cons_of_mem _ hl))

/-- Claim C5 (amended): for every transition after parsing all of its `tr`
declaration lines (arc weights positive, per the data model), the set of
connected places is exactly the support of pre together with post; when the
transition is declared by a single `tr` line, additionally the stored delta
at every place equals `post - pre` and a place with zero delta is absent from
the delta map.  (For an id re-declared by later `tr` lines the two delta
properties can fail: `normalize` never deletes, so a stale non-zero entry
survives at a place whose `post - pre` has become zero.) -/
theorem claim_C5 (trId labelStr : String) (declLines : List TrLine)
    (hw : ∀ ln ∈ declLines, ∀ a ∈ ln.inputs ++ ln.outputs, 0 < a.weight) :
    (∀ p : String,
        p ∈ (parseTransitionLines trId labelStr declLines).connected_places ↔
          (getD (parseTransitionLines trId labelStr declLines).pre p 0 ≠ 0
            ∨ getD (parseTransitionLines trId labelStr declLines).post p 0 ≠ 0))
    ∧ (∀ inputs outputs : List Arc, declLines = [TrLine.mk inputs outputs] →
        ∀ p : String,
          getD (parseTransitionLines trId labelStr declLines).delta p 0
            = ((getD (parseTransitionLines trId labelStr declLines).post p 0 : Nat) : Int)
              - ((getD (parseTransitionLines trId labelStr declLines).pre p 0 : Nat) : Int)
          ∧ (((getD (parseTransitionLines trId labelStr declLines).post p 0 : Nat) : Int)
              - ((getD (parseTransitionLines trId labelStr declLines).pre p 0 : Nat) : Int)
                = 0 →
              p ∉ keysOf (parseTransitionLines trId labelStr declLines).delta)) := by
  have hok : TrOk (parseTransitionLines trId labelStr declLines) :=
    trOk_foldl declLines _ (trOk_init trId labelStr) hw
  obtain ⟨hconn, hpre, hpost⟩ := hok
  constructor
  · intro p
    rw [hconn p]
    constructor
    · rintro (h | h)
      · exact Or.inl (Nat.pos_iff_ne_zero.mp (hpre _ (getD_mem_of_mem_keys _ _ _ h)))
      · exact Or.inr (Nat.pos_iff_ne_zero.mp (hpost _ (getD_mem_of_mem_keys _ _ _ h)))
    · rintro (h | h)
      · refine Or.inl (by_contra fun hc => h ?_)
        exact getD_eq_of_not_mem_keys _ _ _ hc
      · refine Or.inr (by_contra fun hc => h ?_)
        exact getD_eq_of_not_mem_keys _ _ _ hc
  · rintro inputs outputs rfl p
    have hdelta : (parseTransitionLines trId labelStr [TrLine.mk inputs outputs]).delta
        = normalize []
            (parseTransitionLines trId labelStr [TrLine.mk inputs outputs]).pre
            (parseTransitionLines trId labelStr [TrLine.mk inputs outputs]).post := rfl
    constructor
    · rw [hdelta, getD_normalize]
      by_cases hd : deltaAt (parseTransitionLines trId labelStr [TrLine.mk inputs outputs]).pre
          (parseTransitionLines trId labelStr [TrLine.mk inputs outputs]).post p = 0
      · rw [if_pos hd]
        unfold deltaAt at hd
        simp only [getD]
        omega
      · rw [if_neg hd]
        rfl
    · intro hz
      rw [hdelta, mem_keys_normalize]
      rintro (h | h)
      · simp [keysOf] at h
      · exact h hz

/-- Counterexample to claim C5 as stated: re-declaring a transition id on a
second `tr` line (`tr t : tau a ->` then `tr t : tau -> a`, the reuse branch
at ptnet.py lines 238-239) leaves the stale delta entry from the first
normalize, because the second run computes `post - pre = 0` for `a` and
assigns nothing while never deleting.  The parsed transition stores delta -1
at `a` although `post - pre = 0` there, and `a` sits in the delta map with
zero difference — refuting both delta conjuncts of the claim. -/
theorem claim_C5_counterexample :
    getD (parseTransitionLines "t" "tau"
        [TrLine.mk [Arc.mk "a" 1] [], TrLine.mk [] [Arc.mk "a" 1]]).delta "a" 0 = -1
    ∧ ((getD (parseTransitionLines "t" "tau"
          [TrLine.mk [Arc.mk "a" 1] [], TrLine.mk [] [Arc.mk "a" 1]]).post "a" 0 : Nat) : Int)
        - ((getD (parseTransitionLines "t" "tau"
          [TrLine.mk [Arc.mk "a" 1] [], TrLine.mk [] [Arc.mk "a" 1]]).pre "a" 0 : Nat) : Int)
          = 0
    ∧ "a" ∈ keysOf (parseTransitionLines "t" "tau"
        [TrLine.mk [Arc.mk "a" 1] [], TrLine.mk [] [Arc.mk "a" 1]]).delta := by
  refine ⟨?_, ?_, ?_⟩ <;> decide

/-- Concrete transition of the spec scenario 5:
`tr t : tau a*2 -> b` (consume 2 from a, produce 1 in b). -/
def exInputs : List Arc := [⟨"a", 2⟩]

/-- Output arcs of the scenario-5 transition. -/
def exOutputs : List Arc := [⟨"b", 1⟩]

/-- Witness for claim C5 at the single-line transition `tr t : tau a*2 -> b`
and the place `a`. -/
theorem claim_C5_witness :
    ("a" ∈ (parseTransitionLines "t" "tau" [TrLine.mk exInputs exOutputs]).connected_places ↔
        (getD (parseTransitionLines "t" "tau" [TrLine.mk exInputs exOutputs]).pre "a" 0 ≠ 0
          ∨ getD (parseTransitionLines "t" "tau" [TrLine.mk exInputs exOutputs]).post "a" 0 ≠ 0))
    ∧ (getD (parseTransitionLines "t" "tau" [TrLine.mk exInputs exOutputs]).delta "a" 0
        = ((getD (parseTransitionLines "t" "tau" [TrLine.mk exInputs exOutputs]).post "a" 0
              : Nat) : Int)
          - ((getD (parseTransitionLines "t" "tau" [TrLine.mk exInputs exOutputs]).pre "a" 0
              : Nat) : Int)
      ∧ (((getD (parseTransitionLines "t" "tau" [TrLine.mk exInputs exOutputs]).post "a" 0
              : Nat) : Int)
          - ((getD (parseTransitionLines "t" "tau" [TrLine.mk exInputs exOutputs]).pre "a" 0
              : Nat) : Int) = 0 →
          "a" ∉ keysOf (parseTransitionLines "t" "tau" [TrLine.mk exInputs exOutputs]).delta)) :=
  ⟨(claim_C5 "t" "tau" [TrLine.mk exInputs exOutputs] (by decide)).1 "a",
   (claim_C5 "t" "tau" [TrLine.mk exInputs exOutputs] (by decide)).2 exInputs exOutputs rfl "a"⟩

/-! ### Saturated sequences (ptnet.py, class Sequence) -/

/-- One hurdle update of `Sequence.compute_vectors` (ptnet.py line 598):
`self.hurdle[pl] = max(tr.pre.get(pl, 0), self.hurdle.get(pl, 0) - tr.delta.get(pl, 0))`. -/
def hurdleStep (tr : Transition) (hd : List (String × Int)) (pl : String) :
    List (String × Int) :=
  dictInsert hd pl (max ((getD tr.pre pl 0 : Nat) : Int) (getD hd pl 0 - getD tr.delta pl 0))

/-- One displacement update of `Sequence.compute_vectors` (ptnet.py line 600):
`self.delta[pl] = self.delta.get(pl, 0) + tr.delta.get(pl, 0)`. -/
def deltaStep (tr : Transition) (dl : List (String × Int)) (pl : String) :
    List (String × Int) :=
  dictInsert dl pl (getD dl pl 0 + getD tr.delta pl 0)

/-- The inner loop of `Sequence.compute_vectors` for one transition:
`for pl in set(tr.connected_places): ...` (ptnet.py lines 596-600); the set
iteration is rendered as iteration over the deduplicated list. -/
def processTransition (tr : Transition)
    (acc : List (String × Int) × List (String × Int)) :
    List (String × Int) × List (String × Int) :=
  tr.connected_places.dedup.foldl
    (fun acc pl => (hurdleStep tr acc.1 pl, deltaStep tr acc.2 pl)) acc

/-- `Sequence.compute_vectors` (ptnet.py lines 594-600): starting from empty
hurdle and delta dicts, process the transitions of the sequence from the last
to the first (`for tr in reversed(self.sequence)`), which is exactly the
rightmost-first fold below. -/
def computeVectors : List Transition → List (String × Int) × List (String × Int)
  | [] => ([], [])
  | t :: rest => processTransition t (computeVectors rest)

theorem foldl_pair_split {α β γ : Type} (f : α → γ → α) (g : β → γ → β)
    (l : List γ) : ∀ (a : α) (b : β),
    l.foldl (fun p c => (f p.1 c, g p.2 c)) (a, b) = (l.foldl f a, l.foldl g b) := by
  induction l with
  | nil => intro a b; rfl
  | cons c t ih => intro a b; simpa using ih (f a c) (g b c)

theorem foldl_update_lookup (f : String → Int → Int) (l : List String) (hl : l.Nodup) :
    ∀ (m : List (String × Int)) (p : String),
      getD (l.foldl (fun m pl => dictInsert m pl (f pl (getD m pl 0))) m) p 0
        = if p ∈ l then f p (getD m p 0) else getD m p 0 := by
  induction l with
  | nil => intro m p; simp
  | cons a t ih =>
      intro m p
      have hna : a ∉ t := (List.nodup_cons.mp hl).1
      have ht : t.Nodup := (List.nodup_cons.mp hl).2
      simp only [List.foldl_cons]
      rw [ih ht]
      by_cases hpt : p ∈ t
      · have hpa : ¬ p = a := fun h => hna (h ▸ hpt)
        rw [if_pos hpt, getD_dictInsert, if_neg hpa, if_pos (List.mem_cons_of_mem _ hpt)]
      · rw [if_neg hpt, getD_dictInsert]
        by_cases hpa : p = a
        · subst hpa
          rw [if_pos rfl, if_pos (List.mem_cons_self _ _)]
        · rw [if_neg hpa, if_neg (by simp [hpa, hpt])]

theorem foldl_update_entries (f : String → Int → Int) (P : Int → Prop)
    (hf : ∀ pl x, P (f pl x)) (l : List String) :
    ∀ m : List (String × Int), (∀ e ∈ m, P e.2) →
      ∀ e ∈ l.foldl (fun m pl => dictInsert m pl (f pl (getD m pl 0))) m, P e.2 := by
  induction l with
  | nil =>
      intro m h0
      simpa using h0
  | cons a t ih =>
      intro m h0 e he
      simp only [List.foldl_cons] at he
      refine ih _ ?_ e he
      intro g hg
      rcases mem_dictInsert _ _ _ _ hg with h | h
      · rw [h]
        exact hf a _
      · exact h0 g h

theorem processTransition_eq (tr : Transition)
    (acc : List (String × Int) × List (String × Int)) :
    processTransition tr acc
      = (tr.connected_places.dedup.foldl
           (fun m pl => dictInsert m pl
             (max ((getD tr.pre pl 0 : Nat) : Int) (getD m pl 0 - getD tr.delta pl 0))) acc.1,
         tr.connected_places.dedup.foldl
           (fun m pl => dictInsert m pl (getD m pl 0 + getD tr.delta pl 0)) acc.2) := by
  unfold processTransition hurdleStep deltaStep
  exact foldl_pair_split
    (fun m pl => dictInsert m pl
      (max ((getD tr.pre pl 0 : Nat) : Int) (getD m pl 0 - getD tr.delta pl 0)))
    (fun m pl => dictInsert m pl (getD m pl 0 + getD tr.delta pl 0))
    tr.connected_places.dedup acc.1 acc.2

theorem processTransition_fst_lookup (tr : Transition)
    (acc : List (String × Int) × List (String × Int)) (p : String) :
    getD (processTransition tr acc).1 p 0
      = if p ∈ tr.connected_places then
          max ((getD tr.pre p 0 : Nat) : Int) (getD acc.1 p 0 - getD tr.delta p 0)
        else getD acc.1 p 0 := by
  rw [processTransition_eq]
  have := foldl_update_lookup
    (fun pl x => max ((getD tr.pre pl 0 : Nat) : Int) (x - getD tr.delta pl 0))
    tr.connected_places.dedup (List.nodup_dedup _) acc.1 p
  simp only at this
  rw [this]
  simp only [List.mem_dedup]

theorem processTransition_snd_lookup (tr : Transition)
    (acc : List (String × Int) × List (String × Int)) (p : String) :
    getD (processTransition tr acc).2 p 0
      = if p ∈ tr.connected_places then getD acc.2 p 0 + getD tr.delta p 0
        else getD acc.2 p 0 := by
  rw [processTransition_eq]
  have := foldl_update_lookup (fun pl x => x + getD tr.delta pl 0)
    tr.connected_places.dedup (List.nodup_dedup _) acc.2 p
  simp only at this
  rw [this]
  simp only [List.mem_dedup]

/-- Well-formedness invariant of parsed transitions: every key of the pre and
delta dicts is a connected place. `PetriNet.parse_transition` guarantees it
because every dict key is put there by `parse_arc`, which also appends the
place to `connected_places`. -/
def Transition.wf (tr : Transition) : Prop :=
  (∀ p ∈ keysOf tr.pre, p ∈ tr.connected_places)
    ∧ (∀ p ∈ keysOf tr.delta, p ∈ tr.connected_places)

instance (tr : Transition) : Decidable tr.wf := by
  unfold Transition.wf
  exact inferInstance

theorem computeVectors_hurdle_nonneg (seq : List Transition) :
    ∀ e ∈ (computeVectors seq).1, 0 ≤ e.2 := by
  induction seq with
  | nil => simp [computeVectors]
  | cons t rest ih =>
      show ∀ e ∈ (processTransition t (computeVectors rest)).1, 0 ≤ e.2
      rw [processTransition_eq]
      exact foldl_update_entries
        (fun pl x => max ((getD t.pre pl 0 : Nat) : Int) (x - getD t.delta pl 0))
        (fun x => 0 ≤ x)
        (fun pl x => le_trans (Int.natCast_nonneg _) (le_max_left _ _))
        t.connected_places.dedup (computeVectors rest).1 ih

theorem computeVectors_hurdle_getD_nonneg (seq : List Transition) (p : String) :
    0 ≤ getD (computeVectors seq).1 p 0 := by
  by_cases h : p ∈ keysOf (computeVectors seq).1
  · exact computeVectors_hurdle_nonneg seq _ (getD_mem_of_mem_keys _ _ _ h)
  · rw [getD_eq_of_not_mem_keys _ _ _ h]

theorem computeVectors_delta_lookup (seq : List Transition)
    (hwf : ∀ tr ∈ seq, tr.wf) (p : String) :
    getD (computeVectors seq).2 p 0 = (seq.map (fun tr => getD tr.delta p 0)).sum := by
  induction seq with
  | nil => simp [computeVectors, getD]
  | cons t rest ih =>
      have hrest : ∀ tr ∈ rest, tr.wf := fun tr htr => hwf tr (List.mem_cons_of_mem _ htr)
      show getD (processTransition t (computeVectors rest)).2 p 0 = _
      rw [processTransition_snd_lookup, List.map_cons, List.sum_cons]
      by_cases hc : p ∈ t.connected_places
      · rw [if_pos hc, ih hrest]
        ring
      · rw [if_neg hc, ih hrest]
        have hdz : getD t.delta p 0 = 0 := by
          refine getD_eq_of_not_mem_keys _ _ _ (fun hk => hc ?_)
          exact (hwf t (List.mem_cons_self _ _)).2 p hk
        rw [hdz, zero_add]

/-- Claim C1: for the saturated sequence built by `compute_vectors` from a
transition list (rightmost-first fold), the displacement at each place is the
sum of the transition displacements, the hurdle satisfies the fold
`H(t.sigma)[p] = max(pre(t)[p], H(sigma)[p] - Delta(t)[p])` clamped at zero,
and every stored hurdle value is non-negative. -/
theorem claim_C1 (seq : List Transition) (hwf : ∀ tr ∈ seq, tr.wf) :
    (∀ p : String, getD (computeVectors seq).2 p 0
        = (seq.map (fun tr => getD tr.delta p 0)).sum)
    ∧ (∀ (t : Transition) (rest : List Transition), seq = t :: rest → t.wf →
        ∀ p : String, getD (computeVectors seq).1 p 0
          = max 0 (max ((getD t.pre p 0 : Nat) : Int)
              (getD (computeVectors rest).1 p 0 - getD t.delta p 0)))
    ∧ (∀ e ∈ (computeVectors seq).1, 0 ≤ e.2) := by
  refine ⟨fun p => computeVectors_delta_lookup seq hwf p, ?_, computeVectors_hurdle_nonneg seq⟩
  rintro t rest rfl hwt p
  show getD (processTransition t (computeVectors rest)).1 p 0 = _
  rw [processTransition_fst_lookup]
  by_cases hc : p ∈ t.connected_places
  · rw [if_pos hc]
    have h0 : (0 : Int) ≤ max ((getD t.pre p 0 : Nat) : Int)
        (getD (computeVectors rest).1 p 0 - getD t.delta p 0) :=
      le_trans (Int.natCast_nonneg _) (le_max_left _ _)
    rw [max_eq_right h0]
  · rw [if_neg hc]
    have hpz : getD t.pre p 0 = 0 :=
      getD_eq_of_not_mem_keys _ _ _ (fun hk => hc (hwt.1 p hk))
    have hdz : getD t.delta p 0 = 0 :=
      getD_eq_of_not_mem_keys _ _ _ (fun hk => hc (hwt.2 p hk))
    have hH : 0 ≤ getD (computeVectors rest).1 p 0 :=
      computeVectors_hurdle_getD_nonneg rest p
    rw [hpz, hdz]
    simp [max_eq_right hH]

/-- The scenario-5 transition `tr t : tau a*2 -> b` as a transition value. -/
def exTransition : Transition := parseTransition "t" "tau" exInputs exOutputs

/-- Witness for claim C1 at the one-transition sequence `[exTransition]` and
the place `a`. -/
theorem claim_C1_witness :
    getD (computeVectors [exTransition]).2 "a" 0
        = ([exTransition].map (fun tr => getD tr.delta "a" 0)).sum
    ∧ getD (computeVectors [exTransition]).1 "a" 0
        = max 0 (max ((getD exTransition.pre "a" 0 : Nat) : Int)
            (getD (computeVectors []).1 "a" 0 - getD exTransition.delta "a" 0)) :=
  ⟨(claim_C1 [exTransition] (by decide)).1 "a",
   (claim_C1 [exTransition] (by decide)).2.1 exTransition [] rfl (by decide) "a"⟩

/-- Embedding of Python `' '.join(l)` / `sep.join(l)`. -/
def joinWith (sep : String) : List String → String
  | [] => ""
  | [a] => a
  | a :: rest => a ++ sep ++ joinWith sep rest

/-- Embedding of Python `''.join(l)`. -/
def joinAll : List String → String
  | [] => ""
  | a :: rest => a ++ joinAll rest

/-- `Place.smtlib(k)` with an index (ptnet.py line 406): `name@k`. -/
def placeAt (pl : String) (k : Nat) : String := pl ++ "@" ++ toString k

/-- A saturated sequence (ptnet.py, class Sequence).  `places` is
`self.ptnet.places.values()` of the owning net, in insertion order. -/
structure Sequence where
  places : List String
  saturation_variable : String
  sequence : List Transition
deriving DecidableEq, Repr

/-- The hurdle dict computed by `Sequence.__init__` via `compute_vectors`. -/
def Sequence.hurdle (s : Sequence) : List (String × Int) := (computeVectors s.sequence).1

/-- The displacement dict computed by `Sequence.__init__` via `compute_vectors`. -/
def Sequence.delta (s : Sequence) : List (String × Int) := (computeVectors s.sequence).2

/-- `Sequence.smtlib_declare` (ptnet.py lines 569-570). -/
def Sequence.smtlib_declare (s : Sequence) : String :=
  "(" ++ s.saturation_variable ++ " Int)"

/-- `Sequence.smtlib(k)` (ptnet.py lines 572-592).  Every string is built
exactly as the Python format calls build it.  Notes kept from the source:
the local `eq` string (lines 585-588) is computed there but never used in the
returned formula, so it is omitted here; the hurdle condition reads
`self.delta.get(pl)` with no default (line 582), which is total because
`compute_vectors` inserts hurdle and delta keys in the same loop iteration,
so the defaulted lookup used here agrees with it. -/
def Sequence.smtlib (sq : Sequence) (k : Nat) : String :=
  if sq.sequence.isEmpty then "(true)" else
  let s := sq.saturation_variable
  let non_negative := "(>= " ++ s ++ " 0)"
  let update_0 := joinWith " " (sq.places.map (fun pl =>
    "(= " ++ placeAt pl (k + 1) ++ " " ++ placeAt pl k ++ ")"))
  let hurdle_k := joinWith " " (sq.hurdle.map (fun pr =>
    if pr.2 ≠ 0 then
      (if 0 ≤ getD sq.delta pr.1 0 then
        "(>= " ++ placeAt pr.1 k ++ " " ++ toString pr.2 ++ ")"
      else
        "(>= " ++ placeAt pr.1 k ++ " (+ " ++ toString pr.2 ++ " (* (- " ++ s
          ++ " 1) " ++ toString (getD sq.delta pr.1 0).natAbs ++ ")))")
    else ""))
  let update_k := joinWith " " (sq.places.map (fun pl =>
    if getD sq.delta pl 0 ≠ 0 then
      "(= " ++ placeAt pl (k + 1) ++ " (" ++ (if getD sq.delta pl 0 < 0 then "-" else "+")
        ++ " " ++ placeAt pl k ++ " (* " ++ s ++ " "
        ++ toString (getD sq.delta pl 0).natAbs ++ ")))"
    else "(= " ++ placeAt pl (k + 1) ++ " " ++ placeAt pl k ++ ")"))
  let smt_input := "(or (and (= " ++ s ++ " 0) " ++ update_0 ++ ") (and (> " ++ s
    ++ " 0) (and " ++ hurdle_k ++ " " ++ update_k ++ ")))"
  "(exists (" ++ sq.smtlib_declare ++ ") (and " ++ non_negative ++ " " ++ smt_input ++ "))"

/-- Claim C2: for every non-empty saturated sequence, `Sequence.smtlib(k)` is
the existential quantification over the non-negative saturation variable of
the disjunction of the zero-firing case (all places equal at k+1 and k) and
the positive case carrying, for each place with positive hurdle, the hurdle
constraint (plain when its displacement is non-negative, shifted by
`(s - 1) * |Delta|` when negative), and, for every place, the update
(the scaled displacement when non-zero, equality otherwise). -/
theorem claim_C2 (sq : Sequence) (k : Nat) (hne : sq.sequence ≠ []) :
    sq.smtlib k =
      "(exists (" ++ ("(" ++ sq.saturation_variable ++ " Int)") ++ ") (and "
        ++ ("(>= " ++ sq.saturation_variable ++ " 0)") ++ " "
        ++ ("(or (and (= " ++ sq.saturation_variable ++ " 0) "
            ++ joinWith " " (sq.places.map (fun pl =>
                "(= " ++ placeAt pl (k + 1) ++ " " ++ placeAt pl k ++ ")"))
            ++ ") (and (> " ++ sq.saturation_variable ++ " 0) (and "
            ++ joinWith " " (sq.hurdle.map (fun pr =>
                if 0 < pr.2 then
                  (if 0 ≤ getD sq.delta pr.1 0 then
                    "(>= " ++ placeAt pr.1 k ++ " " ++ toString pr.2 ++ ")"
                  else
                    "(>= " ++ placeAt pr.1 k ++ " (+ " ++ toString pr.2 ++ " (* (- "
                      ++ sq.saturation_variable ++ " 1) "
                      ++ toString (getD sq.delta pr.1 0).natAbs ++ ")))")
                else ""))
            ++ " "
            ++ joinWith " " (sq.places.map (fun pl =>
                if getD sq.delta pl 0 ≠ 0 then
                  "(= " ++ placeAt pl (k + 1) ++ " ("
                    ++ (if getD sq.delta pl 0 < 0 then "-" else "+")
                    ++ " " ++ placeAt pl k ++ " (* " ++ sq.saturation_variable ++ " "
                    ++ toString (getD sq.delta pl 0).natAbs ++ ")))"
                else "(= " ++ placeAt pl (k + 1) ++ " " ++ placeAt pl k ++ ")"))
            ++ ")))")
        ++ "))" := by
  have hcond : ¬(sq.sequence.isEmpty = true) := by
    cases hs : sq.sequence with
    | nil => exact absurd hs hne
    | cons t ts => simp
  have hmap : sq.hurdle.map (fun pr =>
      if pr.2 ≠ 0 then
        (if 0 ≤ getD sq.delta pr.1 0 then
          "(>= " ++ placeAt pr.1 k ++ " " ++ toString pr.2 ++ ")"
        else
          "(>= " ++ placeAt pr.1 k ++ " (+ " ++ toString pr.2 ++ " (* (- "
            ++ sq.saturation_variable ++ " 1) "
            ++ toString (getD sq.delta pr.1 0).natAbs ++ ")))")
      else "")
      = sq.hurdle.map (fun pr =>
      if 0 < pr.2 then
        (if 0 ≤ getD sq.delta pr.1 0 then
          "(>= " ++ placeAt pr.1 k ++ " " ++ toString pr.2 ++ ")"
        else
          "(>= " ++ placeAt pr.1 k ++ " (+ " ++ toString pr.2 ++ " (* (- "
            ++ sq.saturation_variable ++ " 1) "
            ++ toString (getD sq.delta pr.1 0).natAbs ++ ")))")
      else "") := by
    refine map_congr_mem _ _ _ (fun pr hpr => ?_)
    have hnn : 0 ≤ pr.2 := computeVectors_hurdle_nonneg sq.sequence pr hpr
    by_cases hz : pr.2 = 0
    · rw [if_neg (show ¬ pr.2 ≠ 0 by omega), if_neg (show ¬ 0 < pr.2 by omega)]
    · rw [if_pos hz, if_pos (show 0 < pr.2 by omega)]
  unfold Sequence.smtlib
  rw [if_neg hcond]
  simp only [hmap, Sequence.smtlib_declare]

/-- The scenario-5 saturated sequence: the single transition
`tr t : tau a*2 -> b` over the places `a`, `b`, saturation variable `tau0`. -/
def exSequence : Sequence := ⟨["a", "b"], "tau0", [exTransition]⟩

/-- Witness for claim C2 at the scenario-5 sequence and index 0. -/
theorem claim_C2_witness :
    exSequence.smtlib 0 =
      "(exists (" ++ ("(" ++ exSequence.saturation_variable ++ " Int)") ++ ") (and "
        ++ ("(>= " ++ exSequence.saturation_variable ++ " 0)") ++ " "
        ++ ("(or (and (= " ++ exSequence.saturation_variable ++ " 0) "
            ++ joinWith " " (exSequence.places.map (fun pl =>
                "(= " ++ placeAt pl (0 + 1) ++ " " ++ placeAt pl 0 ++ ")"))
            ++ ") (and (> " ++ exSequence.saturation_variable ++ " 0) (and "
            ++ joinWith " " (exSequence.hurdle.map (fun pr =>
                if 0 < pr.2 then
                  (if 0 ≤ getD exSequence.delta pr.1 0 then
                    "(>= " ++ placeAt pr.1 0 ++ " " ++ toString pr.2 ++ ")"
                  else
                    "(>= " ++ placeAt pr.1 0 ++ " (+ " ++ toString pr.2 ++ " (* (- "
                      ++ exSequence.saturation_variable ++ " 1) "
                      ++ toString (getD exSequence.delta pr.1 0).natAbs ++ ")))")
                else ""))
            ++ " "
            ++ joinWith " " (exSequence.places.map (fun pl =>
                if getD exSequence.delta pl 0 ≠ 0 then
                  "(= " ++ placeAt pl (0 + 1) ++ " ("
                    ++ (if getD exSequence.delta pl 0 < 0 then "-" else "+")
                    ++ " " ++ placeAt pl 0 ++ " (* " ++ exSequence.saturation_variable ++ " "
                    ++ toString (getD exSequence.delta pl 0).natAbs ++ ")))"
                else "(= " ++ placeAt pl (0 + 1) ++ " " ++ placeAt pl 0 ++ ")"))
            ++ ")))")
        ++ "))" :=
  claim_C2 exSequence 0 (by decide)

/-- Counterexample to claim C6 as stated: the empty sequence renders as the
string `(true)` — the Python source returns `"(true)"` (ptnet.py line 576) —
which is not the SMT-LIB formula `true`. -/
theorem claim_C6_counterexample :
    (Sequence.mk ["p0"] "tau0" []).smtlib 0 = "(true)"
      ∧ (Sequence.mk ["p0"] "tau0" []).smtlib 0 ≠ "true" := by
  constructor
  · rfl
  · decide

/-- Claim C6 (amended): the saturated sequence built from the empty transition
list has an empty hurdle map and an empty displacement map, and for every
index k its rendering `Sequence.smtlib(k)` is the string `(true)` — the
boolean constant wrapped in one extra pair of parentheses — rather than the
bare SMT-LIB formula `true`. -/
theorem claim_C6 (places : List String) (v : String) (k : Nat) :
    (Sequence.mk places v []).hurdle = []
      ∧ (Sequence.mk places v []).delta = []
      ∧ (Sequence.mk places v []).smtlib k = "(true)" :=
  ⟨rfl, rfl, rfl⟩

/-! ### Petri nets and their transition relations (ptnet.py, class PetriNet) -/

/-- A Petri net after parsing (ptnet.py, class PetriNet).  `places` is
`self.places.values()` in insertion order, `transitions` the name-indexed
transition dict, and the two lists the label-based partition maintained by
`parse_transition`. -/
structure PetriNet where
  id : String
  places : List String
  transitions : List (String × Transition)
  silent_transitions : List Transition
  labeled_transitions : List Transition
deriving DecidableEq, Repr

/-- `Transition.smtlib(k, k_prime, l)` (ptnet.py lines 498-538).  The owning
net's place list (`self.ptnet.places`, used for the unconnected places) is
passed explicitly. -/
def Transition.smtlib (tr : Transition) (allPlaces : List String) (k k_prime : Nat)
    (l : Option String) : String :=
  "\t(and\n\t\t"
    ++ (match l with
        | some lv => if tr.label ≠ "tau" then "(= " ++ lv ++ " " ++ tr.label ++ ")" else ""
        | none => "")
    ++ joinAll (tr.pre.map (fun pr =>
        "(>= " ++ placeAt pr.1 k ++ " " ++ toString pr.2 ++ ")"))
    ++ "\n\t\t"
    ++ joinAll (tr.delta.map (fun pr =>
        "(= " ++ placeAt pr.1 k_prime ++ " (" ++ (if pr.2 < 0 then "-" else "+")
          ++ " " ++ placeAt pr.1 k ++ " " ++ toString pr.2.natAbs ++ "))"))
    ++ "\n\t\t"
    ++ joinAll (allPlaces.filterMap (fun pl =>
        if pl ∈ tr.connected_places then none
        else some ("(= " ++ placeAt pl k_prime ++ " " ++ placeAt pl k ++ ")")))
    ++ "\n\t)\n"

/-- `PetriNet.smtlib_transition_relation(k, k_prime, l, eq)`
(ptnet.py lines 109-144). -/
def PetriNet.smtlib_transition_relation (net : PetriNet) (k k_prime : Nat)
    (l : Option String) (eq : Bool) : String :=
  if net.places.isEmpty then
    match l with
    | none => "true"
    | some lv => "(= " ++ lv ++ " 0)"
  else
    let base := joinAll (net.labeled_transitions.map
      (fun tr => tr.smtlib net.places k k_prime l))
    let withEq :=
      if eq then
        base ++ "\t(and\n\t\t"
          ++ (match l with
              | some lv => "(= " ++ lv ++ " 0)\n\t\t"
              | none => "")
          ++ joinAll (net.places.map (fun pl =>
              "(= " ++ placeAt pl k_prime ++ " " ++ placeAt pl k ++ ")"))
          ++ "\n\t)"
      else base
    "\n(or\n" ++ withEq ++ "\n)\n"

/-- `PetriNet.smtlib_silent_transition_relation(k, k_prime)`
(ptnet.py lines 146-177). -/
def PetriNet.smtlib_silent_transition_relation (net : PetriNet) (k k_prime : Nat) : String :=
  if net.places.isEmpty then "true"
  else
    let base := joinAll (net.silent_transitions.map
        (fun tr => tr.smtlib net.places k k_prime none))
      ++ "\t(and\n\t\t"
      ++ joinAll (net.places.map (fun pl =>
          "(= " ++ placeAt pl k_prime ++ " " ++ placeAt pl k ++ ")"))
      ++ "\n\t)"
    let wrapped := if net.silent_transitions.isEmpty then base
      else "(or\n" ++ base ++ "\n)"
    "\n" ++ wrapped ++ "\n"

/-- Claim C8: on a net with zero places the labeled-transition relation
renders as `true` when no label variable is requested and as `(= l 0)` when
one is, and the silent-transition relation renders as `true`, for all
indices. -/
theorem claim_C8 (net : PetriNet) (hp : net.places = []) (k k_prime : Nat) (eq : Bool) :
    net.smtlib_transition_relation k k_prime none eq = "true"
    ∧ (∀ l : String,
        net.smtlib_transition_relation k k_prime (some l) eq = "(= " ++ l ++ " 0)")
    ∧ net.smtlib_silent_transition_relation k k_prime = "true" := by
  have hE : net.places.isEmpty = true := by rw [hp]; rfl
  refine ⟨?_, fun l => ?_, ?_⟩
  · unfold PetriNet.smtlib_transition_relation
    rw [if_pos hE]
  · unfold PetriNet.smtlib_transition_relation
    rw [if_pos hE]
  · unfold PetriNet.smtlib_silent_transition_relation
    rw [if_pos hE]

/-- A concrete net with no places and no transitions. -/
def exEmptyNet : PetriNet := ⟨"empty", [], [], [], []⟩

/-- Witness for claim C8 at the concrete zero-place net, indices 0 and 1,
label variable `l`. -/
theorem claim_C8_witness :
    exEmptyNet.smtlib_transition_relation 0 1 none true = "true"
    ∧ exEmptyNet.smtlib_transition_relation 0 1 (some "l") true = "(= " ++ "l" ++ " 0)"
    ∧ exEmptyNet.smtlib_silent_transition_relation 0 1 = "true" :=
  ⟨(claim_C8 exEmptyNet rfl 0 1 true).1,
   (claim_C8 exEmptyNet rfl 0 1 true).2.1 "l",
   (claim_C8 exEmptyNet rfl 0 1 true).2.2⟩

/-! ### SMT helper combinators (reductron.py lines 39-83) -/

/-- `smt_and` (reductron.py lines 39-48). -/
def smt_and (constraints : List String) : String :=
  if constraints.isEmpty then "true"
  else
    let smt_input := joinWith " " constraints
    if constraints.length > 1 then "(and " ++ smt_input ++ ")" else smt_input

/-- `smt_imply` (reductron.py lines 78-79). -/
def smt_imply (left right : String) : String :=
  "(=> " ++ left ++ " " ++ right ++ ")"

/-- `smt_forall` (reductron.py lines 62-67). -/
def smt_forall (declaration : List String) (constraint : String) : String :=
  if declaration.isEmpty then constraint
  else
    let smt_declaration := joinWith " " (declaration.map (fun v => "(" ++ v ++ " Int)"))
    let smt_non_negative := smt_and (declaration.map (fun v => "(>= " ++ v ++ " 0)"))
    "(forall (" ++ smt_declaration ++ ") " ++ smt_imply smt_non_negative constraint ++ ")"

/-- `smt_exists` (reductron.py lines 70-75). -/
def smt_exists (declaration : List String) (constraint : String) : String :=
  if declaration.isEmpty then constraint
  else
    let smt_declaration := joinWith " " (declaration.map (fun v => "(" ++ v ++ " Int)"))
    let smt_non_negative := smt_and (declaration.map (fun v => "(>= " ++ v ++ " 0)"))
    "(exists (" ++ smt_declaration ++ ") " ++ smt_and [smt_non_negative, constraint] ++ ")"

/-- Claim C9: with a non-empty declaration list, `smt_forall` produces the
universal quantification whose body is the implication from the non-negativity
of every declared variable to the constraint, and `smt_exists` the existential
quantification whose body conjoins the non-negativity with the constraint;
with an empty declaration list both return the constraint unchanged. -/
theorem claim_C9 (declaration : List String) (constraint : String) :
    (declaration ≠ [] →
      smt_forall declaration constraint
        = "(forall (" ++ joinWith " " (declaration.map (fun v => "(" ++ v ++ " Int)"))
          ++ ") "
          ++ ("(=> " ++ smt_and (declaration.map (fun v => "(>= " ++ v ++ " 0)"))
              ++ " " ++ constraint ++ ")")
          ++ ")"
      ∧ smt_exists declaration constraint
        = "(exists (" ++ joinWith " " (declaration.map (fun v => "(" ++ v ++ " Int)"))
          ++ ") "
          ++ ("(and " ++ smt_and (declaration.map (fun v => "(>= " ++ v ++ " 0)"))
              ++ " " ++ constraint ++ ")")
          ++ ")")
    ∧ smt_forall [] constraint = constraint
    ∧ smt_exists [] constraint = constraint := by
  refine ⟨fun hne => ?_, rfl, rfl⟩
  have hE : declaration.isEmpty = false := by
    cases declaration with
    | nil => exact absurd rfl hne
    | cons a t => rfl
  constructor
  · unfold smt_forall smt_imply
    rw [hE]
    rfl
  · unfold smt_exists
    rw [hE]
    show _ = _ ++ smt_and [_, _] ++ ")"
    unfold smt_and
    rfl

/-- Witness for claim C9 at the concrete declaration list `[p@0, x]`. -/
theorem claim_C9_witness :
    smt_forall ["p@0", "x"] "(> p@0 x)"
      = "(forall (" ++ joinWith " " (["p@0", "x"].map (fun v => "(" ++ v ++ " Int)"))
        ++ ") "
        ++ ("(=> " ++ smt_and (["p@0", "x"].map (fun v => "(>= " ++ v ++ " 0)"))
            ++ " " ++ "(> p@0 x)" ++ ")")
        ++ ")"
    ∧ smt_exists ["p@0", "x"] "(> p@0 x)"
      = "(exists (" ++ joinWith " " (["p@0", "x"].map (fun v => "(" ++ v ++ " Int)"))
        ++ ") "
        ++ ("(and " ++ smt_and (["p@0", "x"].map (fun v => "(>= " ++ v ++ " 0)"))
            ++ " " ++ "(> p@0 x)" ++ ")")
        ++ ")" :=
  (claim_C9 ["p@0", "x"] "(> p@0 x)").1 (by decide)

/-! ### SMT solver driver (z3.py, class Z3) -/

/-- Oracle for the externally observable behaviour of the z3 subprocess
during one `check_sat` call: whether the pipe to it is broken, and the
response line it prints. -/
structure SolverOracle where
  pipe_broken : Bool
  response : String
deriving DecidableEq, Repr

/-- Result of `Z3.check_sat`: either the method returns a boolean, or
`Z3.abort` kills the solver and exits the whole process (z3.py lines 84-90),
so the call never returns. -/
inductive CheckSatOutcome where
  | ret (b : Bool)
  | aborted
deriving DecidableEq, Repr

/-- `Z3.check_sat(input)` (z3.py lines 151-178): reset, assert, check-sat,
flush, read one line; `sat` gives True, `unsat` gives False, anything else
aborts the process.  The first component lists the chunks written to the
solver standard input; on a broken pipe the first write already raises
`BrokenPipeError` and `abort` is invoked (z3.py lines 105-109). -/
def Z3.check_sat (o : SolverOracle) (input : String) : List String × CheckSatOutcome :=
  if o.pipe_broken then (["(reset)\n"], CheckSatOutcome.aborted)
  else
    (["(reset)\n", "(assert " ++ input ++ ")\n", "(check-sat)\n"],
     if o.response = "sat" then CheckSatOutcome.ret true
     else if o.response = "unsat" then CheckSatOutcome.ret false
     else CheckSatOutcome.aborted)

/-- Claim C7: `Z3.check_sat` emits exactly `(reset)`, `(assert f)`,
`(check-sat)`; it returns True exactly on the response `sat`, False exactly
on `unsat`, and aborts the process on any other response or on a broken
pipe. -/
theorem claim_C7 (o : SolverOracle) (input : String) :
    (o.pipe_broken = false →
      (Z3.check_sat o input).1
          = ["(reset)\n", "(assert " ++ input ++ ")\n", "(check-sat)\n"]
        ∧ (o.response = "sat" →
            (Z3.check_sat o input).2 = CheckSatOutcome.ret true)
        ∧ (o.response = "unsat" →
            (Z3.check_sat o input).2 = CheckSatOutcome.ret false)
        ∧ (o.response ≠ "sat" → o.response ≠ "unsat" →
            (Z3.check_sat o input).2 = CheckSatOutcome.aborted))
    ∧ (o.pipe_broken = true → (Z3.check_sat o input).2 = CheckSatOutcome.aborted) := by
  constructor
  · intro hok
    unfold Z3.check_sat
    rw [hok]
    refine ⟨rfl, fun hs => ?_, fun hu => ?_, fun hns hnu => ?_⟩
    · simp [hs]
    · simp [hu]
    · simp [if_neg hns, if_neg hnu]
  · intro hbroken
    unfold Z3.check_sat
    rw [hbroken]
    rfl

/-- Witness for claim C7: an intact pipe and the response `sat` yield the
three writes and the return value True. -/
theorem claim_C7_witness :
    (Z3.check_sat ⟨false, "sat"⟩ "(> x 0)").1
        = ["(reset)\n", "(assert " ++ "(> x 0)" ++ ")\n", "(check-sat)\n"]
    ∧ (Z3.check_sat ⟨false, "sat"⟩ "(> x 0)").2 = CheckSatOutcome.ret true :=
  ⟨((claim_C7 ⟨false, "sat"⟩ "(> x 0)").1 rfl).1,
   ((claim_C7 ⟨false, "sat"⟩ "(> x 0)").1 rfl).2.1 rfl⟩

/-! ### Accelerator driver (fast.py) -/

/-- Prefix test on character lists (used to embed the Python `in` substring
test). -/
def leadsWith : List Char → List Char → Bool
  | [], _ => true
  | _ :: _, [] => false
  | a :: as, b :: bs => a == b && leadsWith as bs

/-- Embedding of the Python substring test `pat in s`. -/
def containsSub (pat : List Char) : List Char → Bool
  | [] => leadsWith pat []
  | c :: rest => leadsWith pat (c :: rest) || containsSub pat rest

/-- The three external processes spawned by `tau_star` (fast.py lines 57, 67
and 96). -/
inductive ExtCall where
  | ndrio
  | xsltproc
  | fast
deriving DecidableEq, Repr

/-- Oracle for the external accelerator pipeline: the trace lines that the
`fast` engine prints on its standard error.  The two format converters, the
temporary files and the `FAST_DEFAULT_ENGINE` environment variable (fast.py
lines 55-100) are out-of-scope external collaborators and are abstracted by
this oracle. -/
structure FastOracle where
  stderr_lines : List String
deriving DecidableEq, Repr

/-- Lookup in the transition dict `ptnet.transitions[tr]` (fast.py line 111);
a missing key raises `KeyError`. -/
def lookupTr (m : List (String × Transition)) (key : String) : Option Transition :=
  match m.find? (fun e => e.1 == key) with
  | some e => some e.2
  | none => none

/-- One summand of an `OK !` line: `fast_sub_sequence.split('.')` resolved
against the net transitions (fast.py line 111). -/
def parseSummand (net : PetriNet) (s : String) : Except String (List Transition) :=
  (s.splitOn ".").mapM (fun trId =>
    match lookupTr net.transitions trId with
    | some tr => Except.ok tr
    | none => Except.error ("KeyError: " ++ trId))

/-- The output-parsing loop of `tau_star` (fast.py lines 102-113): for every
standard-error line containing `OK !`, take the third space-separated field,
strip parentheses, split on `+` into summands sharing one fresh saturation
variable `tau<counter>`, and build one Sequence per summand. -/
def parseFastLines (net : PetriNet) : Nat → List String → Except String (List Sequence)
  | _, [] => Except.ok []
  | counter, line :: rest =>
      if containsSub "OK !".data line.data then
        match (line.splitOn " ").get? 2 with
        | none => Except.error "IndexError: list index out of range"
        | some expr => do
            let summands := ((expr.replace "(" "").replace ")" "").splitOn "+"
            let seqs ← summands.mapM (parseSummand net)
            let more ← parseFastLines net (counter + 1) rest
            pure (seqs.map (fun trs =>
              Sequence.mk net.places ("tau" ++ toString counter) trs) ++ more)
      else parseFastLines net counter rest

/-- `tau_star(ptnet, region)` (fast.py lines 37-114).  When the net has no
silent transition it returns the empty list at once (lines 52-53), before any
external process is spawned; otherwise it runs the ndrio / xsltproc / fast
pipeline and parses the accelerator standard error. -/
def tau_star (net : PetriNet) (oracle : FastOracle) :
    List ExtCall × Except String (List Sequence) :=
  if net.silent_transitions.isEmpty then ([], Except.ok [])
  else ([ExtCall.ndrio, ExtCall.xsltproc, ExtCall.fast],
        parseFastLines net 0 oracle.stderr_lines)

/-- `check_silent_reachability_set` (reductron.py lines 113-150).  With an
empty sequence list it returns True immediately (lines 126-129), sending
nothing to the solver; the second component records the queries shipped to
`solver.check_sat`.  For a non-empty list the source always reaches
`c1.smtlib_declare(0)` at line 148 (and `c1.smtlib_declare(k=k)` at line 140
when two or more sequences exist), but `Presburger.smtlib_declare`
(presburger.py lines 139-140) accepts no index argument, so the call raises
`TypeError` before any solver query is issued. -/
def check_silent_reachability_set (sequences : List Sequence) :
    Except String (Bool × List String) :=
  if sequences.length = 0 then Except.ok (true, [])
  else Except.error
    "TypeError: smtlib_declare() takes 1 positional argument but 2 were given"

/-- Claim C4: on a net with no silent transitions the accelerator driver
returns the empty list without spawning any external process, and the
conformance check on an empty sequence list returns True without querying the
solver. -/
theorem claim_C4 (net : PetriNet) (oracle : FastOracle)
    (h : net.silent_transitions = []) :
    tau_star net oracle = ([], Except.ok [])
    ∧ check_silent_reachability_set [] = Except.ok (true, []) := by
  constructor
  · unfold tau_star
    rw [if_pos (by rw [h]; rfl)]
  · rfl

/-- A concrete net with one place, one labeled transition and no silent
transition. -/
def exLabeledNet : PetriNet :=
  ⟨"N", ["a", "b"], [("t", exTransition)], [], [exTransition]⟩

/-- Witness for claim C4 at the concrete silent-free net and a non-trivial
oracle output. -/
theorem claim_C4_witness :
    tau_star exLabeledNet ⟨["OK ! (t)"]⟩ = ([], Except.ok [])
    ∧ check_silent_reachability_set [] = Except.ok (true, []) :=
  claim_C4 exLabeledNet ⟨["OK ! (t)"]⟩ rfl

/-! ### Presburger formulas (presburger.py) -/

/-- The expression hierarchy of presburger.py: BooleanConstant, Atom,
StateFormula, TokenCount and IntegerConstant (the ArithmeticOperation class
is never produced by the parser and no claim concerns it). -/
inductive Expr where
  | booleanConstant (value : Bool)
  | integerConstant (value : Nat)
  | tokenCount (places : List String) (additionalVariables : List String)
      (multipliers : List (String × Nat))
  | atom (left right : Expr) (op : String)
  | stateFormula (operands : List Expr) (op : String)

/-- Dict lookup returning an Option (`key in dict` plus `dict[key]`). -/
def lookupKey {α : Type} (m : List (String × α)) (key : String) : Option α :=
  match m.find? (fun e => e.1 == key) with
  | some e => some e.2
  | none => none

mutual

/-- The `smtlib(k)` methods of the expression classes (presburger.py lines
428-434, 489-490, 518-519, 559-572, 605-606), with `k = none` meaning the
un-indexed rendering. -/
def Expr.smtlib : Option Nat → Expr → String
  | _, Expr.booleanConstant b => if b then "true" else "false"
  | _, Expr.integerConstant v => toString v
  | k, Expr.tokenCount places advars mult =>
      let place_smtlib := fun (pl : String) =>
        let base := match k with
          | none => pl
          | some kv => pl ++ "@" ++ toString kv
        match lookupKey mult pl with
        | none => base
        | some m => "(* " ++ base ++ " " ++ toString m ++ ")"
      let variable_smtlib := fun (v : String) =>
        match lookupKey mult v with
        | none => v
        | some m => "(* " ++ v ++ " " ++ toString m ++ ")"
      let smt_input := joinWith " "
        [joinWith " " (places.map place_smtlib), joinWith " " (advars.map variable_smtlib)]
      if places.length + advars.length > 1 then "(+ " ++ smt_input ++ ")" else smt_input
  | k, Expr.atom l r op =>
      "(" ++ op ++ " " ++ Expr.smtlib k l ++ " " ++ Expr.smtlib k r ++ ")"
  | k, Expr.stateFormula ops op =>
      let smt_input := joinWith " " (Expr.smtlibList k ops)
      if ops.length > 1 ∨ op = "not" then "(" ++ op ++ " " ++ smt_input ++ ")" else smt_input

/-- Rendering of an operand list, one string per operand. -/
def Expr.smtlibList : Option Nat → List Expr → List String
  | _, [] => []
  | k, e :: es => Expr.smtlib k e :: Expr.smtlibList k es

end

/-- The opening brace character (forbidden in identifiers; the tokenizer
treats it as the start of a label block). -/
def braceL : Char := Char.ofNat 123

/-- The closing brace character. -/
def braceR : Char := Char.ofNat 125

/-- State of the `_tokenize` loop of `Presburger.parse_formula`
(presburger.py lines 181-216): emitted tokens, the two character buffers and
the open-brace flag. -/
structure TokState where
  tokens : List String
  buffer : List Char
  last : List Char
  open_brace : Bool

/-- One step of `_tokenize` for one input character. -/
def tokStep (st : TokState) (c : Char) : TokState :=
  if c = ' ' then st
  else if (c = '/' ∧ st.last = ['\\']) ∨ (c = '\\' ∧ st.last = ['/']) then
    { tokens := st.tokens ++ (if st.buffer.isEmpty then [] else [String.mk st.buffer])
        ++ [String.mk (st.last ++ [c])]
      buffer := []
      last := []
      open_brace := st.open_brace }
  else if (c = '-' ∧ st.open_brace = false) ∨ c = '(' ∨ c = ')' then
    { tokens := st.tokens ++ (if st.last.isEmpty then [] else [String.mk (st.buffer ++ st.last)])
        ++ [String.mk [c]]
      buffer := []
      last := []
      open_brace := st.open_brace }
  else if c = braceL then { st with open_brace := true }
  else if c = braceR then { st with open_brace := false }
  else { st with buffer := st.buffer ++ st.last, last := [c] }

/-- `_tokenize(s)` (presburger.py lines 181-216). -/
def tokenize (s : String) : List String :=
  let st := s.data.foldl tokStep ⟨[], [], [], false⟩
  st.tokens ++ (if st.buffer.isEmpty ∧ st.last.isEmpty then []
    else [String.mk (st.buffer ++ st.last)])

/-- Python `str.isnumeric()` restricted to ASCII digits, the only characters
the formula grammar feeds it. -/
def isNumericStr (s : String) : Bool := !s.data.isEmpty && s.data.all Char.isDigit

/-- Numeric value of a digit string (Python `int(...)` on a numeric string). -/
def digitsToNat (l : List Char) : Nat := l.foldl (fun a c => a * 10 + (c.toNat - 48)) 0

/-- Accumulator of `_member_constructor` (presburger.py lines 218-238):
places, additional variables and integer constant collected from the summands,
the multipliers dict, and the enclosing formula's `self.additional_vars`. -/
structure MemberAcc where
  places : List String
  additional_variables : List String
  integer_constant : Nat
  multipliers : List (String × Nat)
  self_additional : List String

/-- The summand loop of `_member_constructor` (presburger.py lines 220-233). -/
def memberLoop (netPlaces : List String) :
    List String → MemberAcc → Except String MemberAcc
  | [], acc => Except.ok acc
  | element :: rest, acc =>
      if isNumericStr element then
        memberLoop netPlaces rest
          { acc with integer_constant := acc.integer_constant + digitsToNat element.data }
      else
        let split_element := element.splitOn "*"
        let varName := (split_element.getLast?).getD ""
        let acc1 :=
          if varName ∈ netPlaces then
            { acc with places := acc.places ++ [varName] }
          else
            { acc with
                additional_variables := acc.additional_variables ++ [varName]
                self_additional := acc.self_additional ++ [varName] }
        if split_element.length > 1 then
          match split_element.head? with
          | some m0 =>
              if isNumericStr m0 then
                memberLoop netPlaces rest
                  { acc1 with
                      multipliers := dictInsert acc1.multipliers varName (digitsToNat m0.data) }
              else Except.error "ValueError: invalid literal for int()"
          | none => Except.error "ValueError: invalid literal for int()"
        else memberLoop netPlaces rest acc1

/-- `_member_constructor(member)` (presburger.py lines 218-238); also returns
the updated `self.additional_vars` list it mutates. -/
def member_constructor (netPlaces : List String) (addl : List String) (member : String) :
    Except String (Expr × List String) :=
  match memberLoop netPlaces (member.splitOn "+") ⟨[], [], 0, [], addl⟩ with
  | Except.error e => Except.error e
  | Except.ok acc =>
      if ¬ acc.places.isEmpty ∨ ¬ acc.additional_variables.isEmpty then
        Except.ok (Expr.tokenCount acc.places acc.additional_variables acc.multipliers,
          acc.self_additional)
      else Except.ok (Expr.integerConstant acc.integer_constant, acc.self_additional)

/-- `re.split("(<=|>=|<|>|=)", token)` (presburger.py lines 306-315): split
the token at every comparison operator, keeping the separators; the
alternation prefers the two-character operators, like the regular
expression. -/
def splitCmpAux : List Char → List Char → List String
  | acc, [] => [String.mk acc.reverse]
  | acc, '<' :: '=' :: r => String.mk acc.reverse :: "<=" :: splitCmpAux [] r
  | acc, '>' :: '=' :: r => String.mk acc.reverse :: ">=" :: splitCmpAux [] r
  | acc, '<' :: r => String.mk acc.reverse :: "<" :: splitCmpAux [] r
  | acc, '>' :: r => String.mk acc.reverse :: ">" :: splitCmpAux [] r
  | acc, '=' :: r => String.mk acc.reverse :: "=" :: splitCmpAux [] r
  | acc, c :: r => splitCmpAux (c :: acc) r

/-- State of the main loop of `Presburger.parse_formula`
(presburger.py lines 240-331). -/
structure ParseState where
  open_parenthesis : Nat
  stack_operator : List (String × Nat)
  stack_operands : List (List Expr)
  current_operator : Option String
  parse_atom : Bool
  additional_vars : List String

/-- The token dispatch loop of `Presburger.parse_formula`
(presburger.py lines 253-320).  The operand and operator stacks keep their
top at the head; appending to `stack_operands[-1]` appends at the end of the
head list. -/
def parseLoop (netPlaces : List String) :
    List String → ParseState → Except String ParseState
  | [], st => Except.ok st
  | token :: rest, st =>
      if token = "" ∨ token = " " then parseLoop netPlaces rest st
      else if token = "-" ∨ token = "/\\" ∨ token = "\\/" then
        let token_operator :=
          if token = "-" then "not" else if token = "/\\" then "and" else "or"
        match st.current_operator with
        | some current =>
            if current ≠ token_operator then
              match st.stack_operator, st.stack_operands with
              | (op, _) :: opRest, top :: opndRest =>
                  parseLoop netPlaces rest
                    { st with
                        stack_operator := opRest
                        stack_operands := [Expr.stateFormula top op] :: opndRest }
              | _, _ => Except.error "IndexError: pop from an empty deque"
            else parseLoop netPlaces rest st
        | none =>
            parseLoop netPlaces rest
              { st with
                  stack_operator := (token_operator, st.open_parenthesis) :: st.stack_operator
                  current_operator := some token_operator }
      else if token = "(" then
        parseLoop netPlaces rest
          { st with
              open_parenthesis := st.open_parenthesis + 1
              stack_operands := [] :: st.stack_operands
              current_operator := none }
      else if token = ")" then
        if st.open_parenthesis = 0 then Except.error "Unbalanced parentheses"
        else
          let newOpen := st.open_parenthesis - 1
          match st.stack_operands with
          | operands :: belowStack =>
              match st.current_operator with
              | some _ =>
                  match st.stack_operator, belowStack with
                  | (op, _) :: opRest, below :: belowRest =>
                      let current2 : Option String :=
                        match opRest with
                        | (op2, lvl) :: _ => if lvl = newOpen then some op2 else none
                        | [] => none
                      parseLoop netPlaces rest
                        { st with
                            open_parenthesis := newOpen
                            stack_operator := opRest
                            stack_operands :=
                              (below ++ [Expr.stateFormula operands op]) :: belowRest
                            current_operator := current2 }
                  | _, _ => Except.error "IndexError: pop from an empty deque"
              | none =>
                  match operands.head?, belowStack with
                  | some e, below :: belowRest =>
                      let current2 : Option String :=
                        match st.stack_operator with
                        | (op2, lvl) :: _ => if lvl = newOpen then some op2 else none
                        | [] => none
                      parseLoop netPlaces rest
                        { st with
                            open_parenthesis := newOpen
                            stack_operands := (below ++ [e]) :: belowRest
                            current_operator := current2 }
                  | _, _ => Except.error "IndexError: list index out of range"
          | [] => Except.error "IndexError: pop from an empty deque"
      else if token = "T" ∨ token = "F" then
        match st.stack_operands with
        | top :: below =>
            parseLoop netPlaces rest
              { st with
                  stack_operands := (top ++ [Expr.booleanConstant (token == "T")]) :: below }
        | [] => Except.error "IndexError: pop from an empty deque"
      else
        let parts := splitCmpAux [] token.data
        if parts.length > 1 then
          if st.parse_atom then
            match parts with
            | [_, op, right] =>
                match st.stack_operands with
                | top :: below =>
                    match top.getLast?, member_constructor netPlaces st.additional_vars right with
                    | some leftE, Except.ok (rightE, addl2) =>
                        parseLoop netPlaces rest
                          { st with
                              stack_operands :=
                                (top.dropLast ++ [Expr.atom leftE rightE op]) :: below
                              additional_vars := addl2
                              parse_atom := false }
                    | none, _ => Except.error "IndexError: pop from empty list"
                    | _, Except.error e => Except.error e
                | [] => Except.error "IndexError: pop from an empty deque"
            | _ => Except.error "ValueError: too many values to unpack"
          else
            match parts with
            | [left, op, right] =>
                match member_constructor netPlaces st.additional_vars left with
                | Except.ok (leftE, addl1) =>
                    match member_constructor netPlaces addl1 right, st.stack_operands with
                    | Except.ok (rightE, addl2), top :: below =>
                        parseLoop netPlaces rest
                          { st with
                              stack_operands := (top ++ [Expr.atom leftE rightE op]) :: below
                              additional_vars := addl2 }
                    | Except.error e, _ => Except.error e
                    | _, [] => Except.error "IndexError: pop from an empty deque"
                | Except.error e => Except.error e
            | _ => Except.error "ValueError: too many values to unpack"
        else
          match member_constructor netPlaces st.additional_vars token, st.stack_operands with
          | Except.ok (e, addl1), top :: below =>
              parseLoop netPlaces rest
                { st with
                    stack_operands := (top ++ [e]) :: below
                    additional_vars := addl1
                    parse_atom := true }
          | Except.error err, _ => Except.error err
          | _, [] => Except.error "IndexError: pop from an empty deque"

/-- `Presburger.parse_formula(formula)` (presburger.py lines 168-331):
tokenize, run the dispatch loop from the initial state, check the
parenthesis balance, and assemble `self.F`; also returns the accumulated
`self.additional_vars`. -/
def parse_formula (netPlaces : List String) (formula : String) :
    Except String (Expr × List String) :=
  match parseLoop netPlaces (tokenize formula)
      ⟨0, [], [[]], none, false, []⟩ with
  | Except.error e => Except.error e
  | Except.ok st =>
      if st.open_parenthesis ≠ 0 then Except.error "Unbalances parentheses"
      else
        match st.stack_operator, st.stack_operands with
        | (op, _) :: _, operands :: _ =>
            Except.ok (Expr.stateFormula operands op, st.additional_vars)
        | [], operands :: _ =>
            match operands.head? with
            | some e => Except.ok (e, st.additional_vars)
            | none => Except.error "IndexError: list index out of range"
        | _, [] => Except.error "IndexError: pop from an empty deque"

/-- The constraint marker looked up in the net file (presburger.py line 160). -/
def constraintMarker : String := "# Constraint:"

/-- Python `line.rstrip(str-of-newline)`. -/
def rstripNl (s : String) : String :=
  String.mk ((s.data.reverse.dropWhile (fun c => c = '\n')).reverse)

/-- `Presburger.parse_coherency_constraint(filename)` (presburger.py lines
148-166) over the list of lines of the file: the first line containing
`# Constraint:` supplies the formula text (with the marker removed);
when no line matches, the formula defaults to `T`. -/
def parse_coherency_constraint (netPlaces : List String) (lines : List String) :
    Except String (Expr × List String) :=
  let formula :=
    match lines.find? (fun l => containsSub constraintMarker.data l.data) with
    | some line => (rstripNl line).replace constraintMarker ""
    | none => "T"
  parse_formula netPlaces formula

/-- A Presburger formula after parsing (presburger.py, class Presburger). -/
structure Presburger where
  places : List String
  identifier : String
  additional_vars : List String
  F : Expr

/-- `Presburger.__init__` (presburger.py lines 94-113) over the file lines:
parse the coherency constraint and store the resulting expression and
additional variables. -/
def Presburger.build (lines : List String) (netPlaces : List String)
    (identifier : String) : Except String Presburger :=
  match parse_coherency_constraint netPlaces lines with
  | Except.ok (f, addl) => Except.ok ⟨netPlaces, identifier, addl, f⟩
  | Except.error e => Except.error e

/-- `Presburger.smtlib(k)` (presburger.py lines 125-137). -/
def Presburger.smtlib (c : Presburger) (k : Option Nat) : String := Expr.smtlib k c.F

/-- `Presburger.smtlib_declare` (presburger.py lines 139-140): the source
method accepts no time index and returns only the additional variables. -/
def Presburger.smtlib_declare (c : Presburger) : List String := c.additional_vars

/-- Claim C10: on a net file with no `# Constraint:` line, Presburger
construction succeeds with the formula parsed from `T`, the boolean constant
true, whose smtlib rendering at any index (and un-indexed) is `true`. -/
theorem claim_C10 (lines netPlaces : List String) (idf : String)
    (h : ∀ l ∈ lines, containsSub constraintMarker.data l.data = false) :
    Presburger.build lines netPlaces idf
        = Except.ok ⟨netPlaces, idf, [], Expr.booleanConstant true⟩
    ∧ (∀ k : Option Nat,
        Presburger.smtlib ⟨netPlaces, idf, [], Expr.booleanConstant true⟩ k = "true") := by
  have hfind : lines.find? (fun l => containsSub constraintMarker.data l.data) = none := by
    rw [List.find?_eq_none]
    intro l hl
    simpa using h l hl
  constructor
  · unfold Presburger.build parse_coherency_constraint
    rw [hfind]
    rfl
  · intro k
    rfl

/-- Witness for claim C10 at a concrete constraint-free net file. -/
theorem claim_C10_witness :
    Presburger.build ["net N", "tr t : tau a -> b", "pl a"] ["a", "b"] "C1"
        = Except.ok ⟨["a", "b"], "C1", [], Expr.booleanConstant true⟩
    ∧ Presburger.smtlib ⟨["a", "b"], "C1", [], Expr.booleanConstant true⟩ (some 0)
        = "true" :=
  ⟨(claim_C10 ["net N", "tr t : tau a -> b", "pl a"] ["a", "b"] "C1" (by decide)).1,
   (claim_C10 ["net N", "tr t : tau a -> b", "pl a"] ["a", "b"] "C1" (by decide)).2 (some 0)⟩

/-- Claim C3 is refuted by the source: `Presburger.smtlib_declare`
(presburger.py lines 139-140) takes no index argument at all — its callers
`check_silent_reachability_set` (reductron.py lines 140 and 148), `core_2`
and `core_3` pass one, which raises `TypeError` — and it returns only the
additional variables, never the per-place declarations `p@k`.  Evaluated on a
formula constraining the place `p0`, the declaration list is empty. -/
theorem claim_C3_eval :
    (Presburger.mk ["p0"] "C1" [] (Expr.booleanConstant true)).smtlib_declare = []
    ∧ "p0" ∈ (Presburger.mk ["p0"] "C1" [] (Expr.booleanConstant true)).places
    ∧ (Presburger.mk ["p0"] "C1" [] (Expr.booleanConstant true)).smtlib_declare
        ≠ ["p0@0"] := by
  refine ⟨rfl, ?_, ?_⟩
  · exact List.mem_singleton.mpr rfl
  · decide

end Reductron
